import Mathlib

/-!
# Verification of the backup-tools-go change-detection and archival engine

Shallow embedding of the Go sources:

* `src/main.go` (second revision, the one the manifest/concurrency spec
  describes): `doBackup`, `saveManifest`, `openManifest`;
* `src/backup/func.go`: `ZipDirectory` and the data model of the snapshot builder.

Machine integers play no role (the code compares strings and walks lists),
so the embedding uses `String`, `List`, `Option` and `Except` directly.
-/

/-! ## Data model

`backup.DirectoryEntry` as used by `doBackup`: the manifest is a list of
top-level entries; each carries a flat list of descendant entries holding
only `name` and `mod_time` (the hybrid one-level shape; children never nest
further).  The constant `"directory"` type tag is carried by the JSON but
never read by the logic, so it is omitted here.  `ModTime` is the string
the manifest stores (RFC3339).  `ZipPath` is empty/absent until a
successful archive sets it; it is modelled as `Option String`.

The exported `DirectoryEntry` type that this `main.go` revision compiles
against is not itself in the sources (`func.go` holds an older unexported
value-type revision); following the `[]*backup.DirectoryEntry`
signature of `saveManifest` and the stamping requirement of the spec, entries behave as mutable
(pointer) records, which the functional embedding renders as mapped
updates.
-/

structure ChildEntry where
  name : String
  modTime : String
deriving DecidableEq, Repr

structure DirEntry where
  name : String
  modTime : String
  children : List ChildEntry
  zipPath : Option String
deriving DecidableEq, Repr

/-- The fixed output path of `main.go` (`backupOutputPath = "/backups"`). -/
def backupOutputPath : String := "/backups"

/-- Model of `filepath.Join(backupOutputPath, name + ".zip")` for a clean name. -/
def destZipPath (n : String) : String := backupOutputPath ++ "/" ++ n ++ ".zip"

/-! ## Change detector (`doBackup`, src/main.go lines 146-189)

For a new-snapshot entry `ft` and an old-manifest entry `of`, the code
enters the diff only when `ft.Name == of.Name && of.ModTime != ft.ModTime`;
it then sets `isChildDifferent` when the new entry has no children, or when
some new child and some old child share a name but differ in `modTime`.
-/

/-- Lines 150-162: `isChildDifferent` for a matched pair. -/
def isChildDifferent (ft of : DirEntry) : Bool :=
  if ft.children.isEmpty then
    true
  else
    ft.children.any (fun ftc =>
      of.children.any (fun ofc => ftc.name == ofc.name && ftc.modTime != ofc.modTime))

/-- Line 148 guard plus lines 150-164: the full per-pair condition under
which the code spawns an archive task for `ft` against old entry `of`. -/
def flagCond (of ft : DirEntry) : Bool :=
  ft.name == of.name && of.modTime != ft.modTime && isChildDifferent ft of

/-- An entry of the new snapshot is flagged when some old-manifest entry
triggers `flagCond` (the inner `for _, of := range oldManifest` loop). -/
def needsBackup (oldManifest : List DirEntry) (ft : DirEntry) : Bool :=
  oldManifest.any (fun of => flagCond of ft)

/-- The archive tasks spawned by the nested loops, in program order: one
spawn per `(ft, of)` pair satisfying `flagCond` (lines 146-189), recorded
by the name of the directory being zipped.  `processedBackup` is the length
of this list. -/
def spawnNames (oldManifest : List DirEntry) (tree : List DirEntry) : List String :=
  tree.flatMap (fun ft => ((oldManifest.filter (fun of => flagCond of ft)).map (fun _ => ft.name)))

/-! ## Manifest persistence (`saveManifest`, src/main.go lines 207-218)

`saveManifest` returns an error only when `os.Create` fails; the return
value of `newManifest.Write(m)` on line 214 is discarded, so a failed
content write still yields `nil`.  The outcome is modelled by the two
booleans `createOk` (did `os.Create` succeed) and `writeOk` (did the
content write succeed).
-/

/-- Returns `true` iff `saveManifest` returns `nil`: exactly `createOk`, because the
`Write` error is ignored. -/
def saveManifestOk (createOk : Bool) (_writeOk : Bool) : Bool := createOk

/-- Whether the serialized snapshot actually reached the manifest file:
both the create and the write must succeed. -/
def manifestPersisted (createOk writeOk : Bool) : Bool := createOk && writeOk

/-! ## The orchestrator (`doBackup`, src/main.go lines 112-205) -/

/-- Outcome of `openManifest` (lines 220-233): the file may be absent
(`os.ErrNotExist`), unreadable/undecodable, or loaded. -/
inductive LoadResult where
  | notFound
  | failed
  | loaded (oldManifest : List DirEntry)
deriving DecidableEq, Repr

/-- Lines 126-131: stamp every top-level entry and every child with the
current time (first-run bootstrap). -/
def stampAll (now : String) (tree : List DirEntry) : List DirEntry :=
  tree.map (fun e =>
    { e with modTime := now, children := e.children.map (fun c => { c with modTime := now }) })

/-- Lines 177-184: after the archive goroutine for a flagged entry returns,
`parent.ZipPath` is set to the destination path exactly when
`ZipDirectory` succeeded; otherwise the entry is left untouched.
`zipOk name` abstracts the success of zipping directory `name`. -/
def applyZipResult (oldManifest : List DirEntry) (zipOk : String → Bool) (e : DirEntry) :
    DirEntry :=
  if needsBackup oldManifest e && zipOk e.name then
    { e with zipPath := some (destZipPath e.name) }
  else
    e

/-- Observable outcome of one `doBackup` run. -/
structure RunOutcome where
  result : Except String Unit
  archiveCalls : List String
  archivesWritten : List String
  saved : Option (List DirEntry)
deriving Repr

/-- The function `doBackup` (src/main.go lines 112-205), as a function of its run inputs:
the scanned snapshot `tree`, the manifest load outcome, the current time,
per-directory archiver success `zipOk`, and the two `saveManifest`
sub-outcomes.  `archiveCalls` lists the spawned `ZipDirectory` invocations,
`archivesWritten` the archive files successfully produced, and `saved` the
snapshot durably persisted to `manifest.json` (or `none`). -/
def doBackup (load : LoadResult) (tree : List DirEntry) (now : String)
    (zipOk : String → Bool) (createOk writeOk : Bool) : RunOutcome :=
  match load with
  | .notFound =>
      let stamped := stampAll now tree
      if saveManifestOk createOk writeOk then
        { result := .ok (), archiveCalls := [], archivesWritten := [],
          saved := if manifestPersisted createOk writeOk then some stamped else none }
      else
        { result := .error "ERROR when saving manifest", archiveCalls := [],
          archivesWritten := [], saved := none }
  | .failed =>
      { result := .error "ERROR when opening manifest", archiveCalls := [],
        archivesWritten := [], saved := none }
  | .loaded oldManifest =>
      let sp := spawnNames oldManifest tree
      let written := (sp.filter zipOk).map destZipPath
      let annotated := tree.map (applyZipResult oldManifest zipOk)
      if saveManifestOk createOk writeOk then
        { result := .ok (), archiveCalls := sp, archivesWritten := written,
          saved := if manifestPersisted createOk writeOk then some annotated else none }
      else
        { result := .error "ERROR when saving manifest", archiveCalls := sp,
          archivesWritten := written, saved := none }

/-! ## Claims about the change detector -/

/-- Claim C1: the detection rule of the spec says a matched entry needs backup
unless its top-level modTime is unchanged *and* its child set is
structurally identical; any child change alone must flag the parent.  The
code disagrees: with the top-level modTime unchanged (`"t1"` on both
sides) and a child whose modTime changed (`"t2"` vs `"t3"`), `doBackup`
does not flag the entry — the line-148 guard `of.ModTime != ft.ModTime`
short-circuits before children are examined. -/
theorem detector_misses_child_only_change :
    needsBackup [⟨"A", "t1", [⟨"c1", "t2"⟩], none⟩] ⟨"A", "t1", [⟨"c1", "t3"⟩], none⟩ = false ∧
    spawnNames [⟨"A", "t1", [⟨"c1", "t2"⟩], none⟩] [⟨"A", "t1", [⟨"c1", "t3"⟩], none⟩] = [] := by
  decide

/-- Claim C2: a top-level directory present in the new snapshot but absent
from the old manifest is, per the spec, always flagged.  The nested
loops of the code only react to name matches, so a new directory (`"A"`, absent from
the old manifest `[⟨"B", ...⟩]`) is never flagged and no archive task is
spawned. -/
theorem detector_ignores_new_directory :
    needsBackup [⟨"B", "t0", [], none⟩] ⟨"A", "t1", [], none⟩ = false ∧
    spawnNames [⟨"B", "t0", [], none⟩] [⟨"A", "t1", [], none⟩] = [] := by
  decide

/-- Claim C9: idempotence of the no-op diff: diffing a snapshot against an
identical prior snapshot flags no entry and spawns no archive task,
provided top-level names are unique (a data-model invariant of the spec,
guaranteed for scanner output since `os.ReadDir` yields distinct names). -/
theorem noop_diff_flags_nothing (tree : List DirEntry)
    (hnodup : (tree.map DirEntry.name).Nodup) :
    (∀ ft ∈ tree, needsBackup tree ft = false) ∧ spawnNames tree tree = [] := by
  have hinj : ∀ x ∈ tree, ∀ y ∈ tree, x.name = y.name → x = y :=
    List.inj_on_of_nodup_map hnodup
  have hflag : ∀ ft ∈ tree, ∀ of ∈ tree, flagCond of ft = false := by
    intro ft hft of hof
    by_cases hname : ft.name = of.name
    · have : of = ft := hinj of hof ft hft hname.symm
      subst this
      simp [flagCond]
    · simp [flagCond, hname]
  constructor
  · intro ft hft
    simp only [needsBackup, List.any_eq_false]
    intro of hof
    simp [hflag ft hft of hof]
  · simp only [spawnNames, List.flatMap_eq_nil_iff]
    intro ft hft
    simp only [List.map_eq_nil_iff, List.filter_eq_nil_iff]
    intro of hof
    simp [hflag ft hft of hof]

/-- Witness for C9 at a concrete two-entry snapshot. -/
theorem noop_diff_flags_nothing_witness :
    ([⟨"A", "t1", [⟨"c", "t2"⟩], none⟩, ⟨"B", "t3", [], none⟩].map DirEntry.name).Nodup ∧
    ((∀ ft ∈ [⟨"A", "t1", [⟨"c", "t2"⟩], none⟩, ⟨"B", "t3", [], (none : Option String)⟩],
        needsBackup [⟨"A", "t1", [⟨"c", "t2"⟩], none⟩, ⟨"B", "t3", [], none⟩] ft = false) ∧
      spawnNames [⟨"A", "t1", [⟨"c", "t2"⟩], none⟩, ⟨"B", "t3", [], none⟩]
        [⟨"A", "t1", [⟨"c", "t2"⟩], none⟩, ⟨"B", "t3", [], none⟩] = []) :=
  ⟨by decide, noop_diff_flags_nothing _ (by decide)⟩

/-! ## Claims about the orchestrator -/

/-- Claim C3: first-run bootstrap (lines 123-137): when `openManifest`
reports `os.ErrNotExist`, `doBackup` spawns no archive task, stamps every
top-level entry and every child with the current time, persists the
stamped snapshot as the new manifest, and returns `nil`. -/
theorem first_run_bootstrap (tree : List DirEntry) (now : String) (zipOk : String → Bool) :
    (doBackup .notFound tree now zipOk true true).archiveCalls = [] ∧
    (doBackup .notFound tree now zipOk true true).archivesWritten = [] ∧
    (doBackup .notFound tree now zipOk true true).result = .ok () ∧
    (doBackup .notFound tree now zipOk true true).saved = some (stampAll now tree) ∧
    ∀ e ∈ stampAll now tree, e.modTime = now ∧ ∀ c ∈ e.children, c.modTime = now := by
  refine ⟨rfl, rfl, rfl, rfl, ?_⟩
  intro e he
  simp only [stampAll, List.mem_map] at he
  obtain ⟨e0, -, rfl⟩ := he
  refine ⟨rfl, ?_⟩
  intro c hc
  simp only [List.mem_map] at hc
  obtain ⟨c0, -, rfl⟩ := hc
  rfl

/-- Claim C4: partial failure isolation (lines 164-200): archive failures
never abort the run; with the manifest save succeeding, the run returns
`nil` and persists the snapshot in which exactly the flagged entries whose
zip succeeded carry `zipPath`, the flagged entries whose zip failed (and
the unflagged entries) carry none, and every flagged entry whose zip
succeeded has its archive file produced regardless of other failures. -/
theorem archive_failure_isolation (tree oldManifest : List DirEntry) (now : String)
    (zipOk : String → Bool) (hzp : ∀ e ∈ tree, e.zipPath = none) :
    (doBackup (.loaded oldManifest) tree now zipOk true true).result = .ok () ∧
    (doBackup (.loaded oldManifest) tree now zipOk true true).saved =
      some (tree.map (applyZipResult oldManifest zipOk)) ∧
    (∀ e ∈ tree, (needsBackup oldManifest e && zipOk e.name) = true →
      (applyZipResult oldManifest zipOk e).zipPath = some (destZipPath e.name)) ∧
    (∀ e ∈ tree, (needsBackup oldManifest e && zipOk e.name) = false →
      (applyZipResult oldManifest zipOk e).zipPath = none) ∧
    (∀ e ∈ tree, needsBackup oldManifest e = true → zipOk e.name = true →
      destZipPath e.name ∈
        (doBackup (.loaded oldManifest) tree now zipOk true true).archivesWritten) := by
  refine ⟨rfl, rfl, ?_, ?_, ?_⟩
  · intro e he hcond
    simp [applyZipResult, hcond]
  · intro e he hcond
    simp [applyZipResult, hcond, hzp e he]
  · intro e he hneed hok
    show destZipPath e.name ∈
      ((spawnNames oldManifest tree).filter zipOk).map destZipPath
    refine List.mem_map.mpr ⟨e.name, List.mem_filter.mpr ⟨?_, hok⟩, rfl⟩
    simp only [needsBackup, List.any_eq_true] at hneed
    obtain ⟨of, hof, hflag⟩ := hneed
    exact List.mem_flatMap.mpr
      ⟨e, he, List.mem_map.mpr ⟨of, List.mem_filter.mpr ⟨hof, hflag⟩, rfl⟩⟩

/-- Witness for C4: three flagged directories `A`, `B`, `C` where zipping
`B` fails; the entry for `B` keeps `zipPath` unset while the archive for `A`
is still produced. -/
theorem archive_failure_isolation_witness :
    (applyZipResult
        [⟨"A", "t0", [], none⟩, ⟨"B", "t0", [], none⟩, ⟨"C", "t0", [], none⟩]
        (fun n => n != "B") ⟨"B", "t1", [], none⟩).zipPath = none ∧
    destZipPath "A" ∈
      (doBackup
        (.loaded [⟨"A", "t0", [], none⟩, ⟨"B", "t0", [], none⟩, ⟨"C", "t0", [], none⟩])
        [⟨"A", "t1", [], none⟩, ⟨"B", "t1", [], none⟩, ⟨"C", "t1", [], none⟩]
        "t2" (fun n => n != "B") true true).archivesWritten :=
  ⟨(archive_failure_isolation
      [⟨"A", "t1", [], none⟩, ⟨"B", "t1", [], none⟩, ⟨"C", "t1", [], none⟩]
      [⟨"A", "t0", [], none⟩, ⟨"B", "t0", [], none⟩, ⟨"C", "t0", [], none⟩]
      "t2" (fun n => n != "B") (by decide)).2.2.2.1
      ⟨"B", "t1", [], none⟩ (by decide) (by decide),
   (archive_failure_isolation
      [⟨"A", "t1", [], none⟩, ⟨"B", "t1", [], none⟩, ⟨"C", "t1", [], none⟩]
      [⟨"A", "t0", [], none⟩, ⟨"B", "t0", [], none⟩, ⟨"C", "t0", [], none⟩]
      "t2" (fun n => n != "B") (by decide)).2.2.2.2
      ⟨"A", "t1", [], none⟩ (by decide) (by decide) (by decide)⟩

/-- Claim C8: the claim says a run whose manifest persistence fails — file not
creatable *or* content not writable — returns an error.  The code only
honours the first half: `saveManifest` returns the `os.Create` error
(lines 209-212), but the return value of `newManifest.Write(m)` on line
214 is discarded, so a run whose content write fails still returns `nil`
while nothing was durably persisted. -/
theorem manifest_save_failure_handling :
    (doBackup (.loaded []) [] "t0" (fun _ => true) false true).result =
      .error "ERROR when saving manifest" ∧
    saveManifestOk true false = true ∧
    manifestPersisted true false = false ∧
    (doBackup (.loaded []) [] "t0" (fun _ => true) true false).result = .ok () ∧
    (doBackup (.loaded []) [] "t0" (fun _ => true) true false).saved = none :=
  ⟨rfl, rfl, rfl, rfl, rfl⟩

/-! ## The completion barrier (src/main.go lines 145-198)

`doBackup` does `wg.Add(1)` before each `go func(){...}` and calls
`wg.Wait()` on line 190 before `saveManifest` on line 198, so every spawned
goroutine finishes — in whatever order the scheduler picks — before the
manifest is written.  The archive phase is modelled as the sequence of
observable events of one run: the spawns in program order, then the task
completions in an arbitrary scheduler-chosen order (any permutation of the
spawned tasks — exactly what `wg.Wait` guarantees has happened when it
returns), then the single manifest-persist event.
-/

inductive ArchiveEvent where
  | spawned (name : String)
  | completed (name : String)
  | persistManifest
deriving DecidableEq, Repr

/-- The event trace of the archive phase of one run, parametrised by the
completion order `compOrder` that the scheduler picks. -/
def runTrace (oldManifest tree : List DirEntry) (compOrder : List String) :
    List ArchiveEvent :=
  (spawnNames oldManifest tree).map ArchiveEvent.spawned ++
    compOrder.map ArchiveEvent.completed ++ [ArchiveEvent.persistManifest]

/-- If `x` occurs in `l ++ [x]` only as the final element, any split of the
list around `x` puts everything else before it. -/
theorem append_singleton_split {α : Type} {x : α} :
    ∀ {l pre post : List α}, x ∉ l → l ++ [x] = pre ++ x :: post →
      pre = l ∧ post = [] := by
  intro l
  induction l with
  | nil =>
    intro pre post hx h
    cases pre with
    | nil =>
      simp only [List.nil_append, List.cons.injEq] at h
      exact ⟨rfl, h.2.symm⟩
    | cons a pre2 =>
      simp only [List.nil_append, List.cons_append, List.cons.injEq] at h
      exact absurd (congrArg List.length h.2) (by simp; omega)
  | cons b l2 ih =>
    intro pre post hx h
    cases pre with
    | nil =>
      simp only [List.cons_append, List.nil_append, List.cons.injEq] at h
      refine absurd ?_ hx
      rw [← h.1]
      exact List.mem_cons_self b l2
    | cons a pre2 =>
      simp only [List.cons_append, List.cons.injEq] at h
      obtain ⟨rfl, h2⟩ := h
      obtain ⟨rfl, rfl⟩ := ih (fun hmem => hx (List.mem_cons_of_mem _ hmem)) h2
      exact ⟨rfl, rfl⟩

/-- Claim C5: completion barrier — wherever the persist event sits in the
trace of a run, the completion of every spawned archive task lies strictly
before it, for every scheduler-chosen completion order (any permutation of
the spawned tasks). -/
theorem persist_after_all_completions (oldManifest tree : List DirEntry)
    (compOrder : List String) (hperm : compOrder.Perm (spawnNames oldManifest tree))
    (pre post : List ArchiveEvent)
    (hsplit : runTrace oldManifest tree compOrder =
      pre ++ ArchiveEvent.persistManifest :: post) :
    ∀ n ∈ spawnNames oldManifest tree, ArchiveEvent.completed n ∈ pre := by
  intro n hn
  have hnotin : ArchiveEvent.persistManifest ∉
      (spawnNames oldManifest tree).map ArchiveEvent.spawned ++
        compOrder.map ArchiveEvent.completed := by
    simp
  have hsplit2 : ((spawnNames oldManifest tree).map ArchiveEvent.spawned ++
      compOrder.map ArchiveEvent.completed) ++ [ArchiveEvent.persistManifest] =
      pre ++ ArchiveEvent.persistManifest :: post := by
    simpa [runTrace, List.append_assoc] using hsplit
  obtain ⟨rfl, -⟩ := append_singleton_split hnotin hsplit2
  exact List.mem_append.mpr (Or.inr (List.mem_map.mpr ⟨n, hperm.mem_iff.mpr hn, rfl⟩))

/-- Witness for C5: one flagged directory `A`; in the concrete trace the
completion of the task for `A` precedes the persist event. -/
theorem persist_after_all_completions_witness :
    ArchiveEvent.completed "A" ∈
      [ArchiveEvent.spawned "A", ArchiveEvent.completed "A"] :=
  persist_after_all_completions [⟨"A", "t0", [], none⟩] [⟨"A", "t1", [], none⟩]
    ["A"] (by decide) [ArchiveEvent.spawned "A", ArchiveEvent.completed "A"] []
    (by rfl) "A" (by decide)

/-! ## Compression level (src/main.go line 113, src/backup/func.go lines 41-43)

`compressionLevel, _ := strconv.Atoi(os.Getenv("COMPRESSION_LEVEL"))`
discards the parse error, so an absent variable (`Getenv` returns `""`) or
a non-numeric value yields `0`.  That `0` is handed verbatim to
`flate.NewWriter(out, b.CompressionLevel)`.  In `compress/flate`,
`DefaultCompression = -1` and `NoCompression = 0`.  Only the
syntax-error path of `Atoi` is modelled (its int64 range clamping never
matters for which level reaches `flate.NewWriter` on the unset/invalid
inputs at issue).
-/

/-- Digit-string value: `some` of the decimal value when every character is
a digit and the string is nonempty, `none` otherwise. -/
def digitsVal (cs : List Char) : Option Nat :=
  if cs.isEmpty then none
  else
    cs.foldl
      (fun acc c =>
        match acc with
        | none => none
        | some a => if c.isDigit then some (a * 10 + (c.toNat - 48)) else none)
      (some 0)

/-- Accepted syntax of `strconv.Atoi`: an optional `+`/`-` sign followed by
at least one decimal digit. -/
def parseGoInt (s : String) : Option Int :=
  match s.data with
  | [] => none
  | c :: cs =>
      if c = '-' then (digitsVal cs).map (fun n => -(n : Int))
      else if c = '+' then (digitsVal cs).map (fun n => (n : Int))
      else (digitsVal (c :: cs)).map (fun n => (n : Int))

/-- Model of `strconv.Atoi` with its error discarded, as on src/main.go line 113:
the parsed value, or `0` when the string does not parse. -/
def goAtoi (s : String) : Int := (parseGoInt s).getD 0

/-- Model of `os.Getenv`: the value of the variable, or `""` when it is unset. -/
def getEnv (v : Option String) : String := v.getD ""

/-- The compression level `doBackup` passes to `backup.New` and hence to
`flate.NewWriter` (src/backup/func.go line 42). -/
def compressionLevel (env : Option String) : Int := goAtoi (getEnv env)

/-- The constant `compress/flate.DefaultCompression`. -/
def flateDefaultCompression : Int := -1

/-- The constant `compress/flate.NoCompression`. -/
def flateNoCompression : Int := 0

/-- Claim C7, counterexample: the claim says an unset or non-numeric
`COMPRESSION_LEVEL` makes files compress at the deflate *default* level.
In fact both cases parse to `0`, and `0` is `flate.NoCompression`, not
`flate.DefaultCompression = -1`: the level handed to `flate.NewWriter` is
never the default in these cases. -/
theorem compression_default_counterexample :
    compressionLevel none = 0 ∧
    compressionLevel (some "abc") = 0 ∧
    flateNoCompression = 0 ∧
    flateDefaultCompression = -1 ∧
    compressionLevel none ≠ flateDefaultCompression ∧
    compressionLevel (some "abc") ≠ flateDefaultCompression := by
  decide

/-- Claim C7, amended: whenever `COMPRESSION_LEVEL` is absent or not a
number, the deflate writer of `ZipDirectory` is constructed at level `0` —
`flate.NoCompression` — rather than the deflate default compression
level. -/
theorem compression_level_defaults_to_zero (env : Option String)
    (h : parseGoInt (getEnv env) = none) :
    compressionLevel env = flateNoCompression := by
  simp [compressionLevel, goAtoi, h, flateNoCompression]

/-- Witness for the amended C7 at the unset-variable input. -/
theorem compression_level_defaults_to_zero_witness :
    parseGoInt (getEnv none) = none ∧ compressionLevel none = flateNoCompression :=
  ⟨by decide, compression_level_defaults_to_zero none (by decide)⟩

/-! ## The archiver (`ZipDirectory`, src/backup/func.go lines 30-113)

`ZipDirectory(sourcePath, destZipPath)` creates the destination file with
`os.Create` (line 31), then `filepath.WalkDir(sourcePath, ...)` visits the
source directory and everything beneath it.  The callback computes
`relPath = filepath.Rel(sourcePath, path)`, skips the root (`relPath ==
"."`), and writes one entry per visited node: directories get the name
`relPath + "/"` with method `zip.Store`, files get `relPath` with method
`zip.Deflate` and their contents copied.

Paths are modelled as component lists (`GoPath`), the source tree as a
nested inductive of files and directories.  `WalkDir` visits a node before
its children; its lexical sorting of siblings is represented by the order
of the `children` list (no claim depends on entry order).
-/

abbrev GoPath := List String

inductive FSNode where
  | file (name : String)
  | dir (name : String) (children : List FSNode)

def nodeName : FSNode → String
  | .file n => n
  | .dir n _ => n

mutual

/-- Model of `filepath.WalkDir` visiting the node located at path `p`: the node
itself, then its descendants, each tagged with `IsDir`. -/
def walkAt (p : GoPath) : FSNode → List (GoPath × Bool)
  | .file _ => [(p, false)]
  | .dir _ cs => (p, true) :: walkChildren p cs

/-- The walk over the children of a directory at path `p`. -/
def walkChildren (p : GoPath) : List FSNode → List (GoPath × Bool)
  | [] => []
  | c :: cs => walkAt (p ++ [nodeName c]) c ++ walkChildren p cs

end

/-- One member of the produced archive: its `header.Name` and
`header.Method`. -/
structure ZipEntry where
  name : String
  method : Nat
deriving DecidableEq, Repr

/-- The constant `archive/zip.Store`. -/
def zipStore : Nat := 0

/-- The constant `archive/zip.Deflate`. -/
def zipDeflate : Nat := 8

/-- Path components joined with the separator, as in entry names. -/
def pathString (p : GoPath) : String := String.intercalate "/" p

/-- Model of `filepath.Rel(root, p)` for `p` beneath `root`: drop the root
components (`[]` plays the role of `"."`). -/
def relPath (root p : GoPath) : GoPath := p.drop root.length

/-- The WalkDir callback of `ZipDirectory` (func.go lines 50-106): `none`
when the visit writes no entry (the root, `relPath == "."`), otherwise the
entry written — directories `relPath + "/"` stored, files `relPath`
deflated. -/
def zipDirent (root : GoPath) (pd : GoPath × Bool) : Option ZipEntry :=
  if relPath root pd.1 = [] then none
  else if pd.2 then some ⟨pathString (relPath root pd.1) ++ "/", zipStore⟩
  else some ⟨pathString (relPath root pd.1), zipDeflate⟩

/-- The entries of the archive a successful
`ZipDirectory(pathString root, dest)` call produces for the source node
`n` located at `root`. -/
def ZipDirectory (root : GoPath) (n : FSNode) : List ZipEntry :=
  (walkAt root n).filterMap (zipDirent root)

mutual

def countFiles : FSNode → Nat
  | .file _ => 1
  | .dir _ cs => countFilesList cs

def countFilesList : List FSNode → Nat
  | [] => 0
  | c :: cs => countFiles c + countFilesList cs

end

mutual

def countDirs : FSNode → Nat
  | .file _ => 0
  | .dir _ cs => 1 + countDirsList cs

def countDirsList : List FSNode → Nat
  | [] => 0
  | c :: cs => countDirs c + countDirsList cs

end

mutual

/-- Walking from a longer base path shifts every produced path by the
added components. -/
theorem walkAt_shift (p q : GoPath) (n : FSNode) :
    walkAt (p ++ q) n = (walkAt q n).map (fun e => (p ++ e.1, e.2)) := by
  match n with
  | .file nm => simp [walkAt]
  | .dir nm cs => simp [walkAt, walkChildren_shift p q cs]

theorem walkChildren_shift (p q : GoPath) (cs : List FSNode) :
    walkChildren (p ++ q) cs = (walkChildren q cs).map (fun e => (p ++ e.1, e.2)) := by
  match cs with
  | [] => simp [walkChildren]
  | c :: cs2 =>
    rw [walkChildren, walkChildren]
    rw [List.append_assoc p q [nodeName c]]
    rw [walkAt_shift p (q ++ [nodeName c]) c, walkChildren_shift p q cs2]
    simp

end

mutual

/-- The walk of one node visits exactly its files plus its directories. -/
theorem walkAt_length (p : GoPath) (n : FSNode) :
    (walkAt p n).length = countFiles n + countDirs n := by
  match n with
  | .file nm => simp [walkAt, countFiles, countDirs]
  | .dir nm cs =>
    simp only [walkAt, List.length_cons, walkChildren_length p cs, countFiles, countDirs]
    omega

theorem walkChildren_length (p : GoPath) (cs : List FSNode) :
    (walkChildren p cs).length = countFilesList cs + countDirsList cs := by
  match cs with
  | [] => simp [walkChildren, countFilesList, countDirsList]
  | c :: cs2 =>
    simp only [walkChildren, List.length_append, walkAt_length (p ++ [nodeName c]) c,
      walkChildren_length p cs2, countFilesList, countDirsList]
    omega

end

mutual

/-- Every path the walk of the node at `p` produces is at least as long
as `p`. -/
theorem walkAt_path_long (p : GoPath) (n : FSNode) :
    ∀ e ∈ walkAt p n, p.length ≤ e.1.length := by
  match n with
  | .file nm =>
    intro e he
    simp only [walkAt, List.mem_singleton] at he
    simp [he]
  | .dir nm cs =>
    intro e he
    simp only [walkAt, List.mem_cons] at he
    rcases he with rfl | he
    · exact le_refl _
    · exact le_of_lt (walkChildren_path_long p cs e he)

/-- Every path produced beneath a directory at `p` is strictly longer
than `p`. -/
theorem walkChildren_path_long (p : GoPath) (cs : List FSNode) :
    ∀ e ∈ walkChildren p cs, p.length < e.1.length := by
  match cs with
  | [] =>
    intro e he
    simp [walkChildren] at he
  | c :: cs2 =>
    intro e he
    simp only [walkChildren, List.mem_append] at he
    rcases he with he | he
    · have h2 := walkAt_path_long (p ++ [nodeName c]) c e he
      simp only [List.length_append, List.length_cons, List.length_nil] at h2
      omega
    · exact walkChildren_path_long p cs2 e he

end

/-- A `filterMap` collapses to `map` on a list where the function is `some`
of `g` at every member. -/
theorem filterMap_eq_map_of_some {α β : Type} (f : α → Option β) (g : α → β)
    (l : List α) (h : ∀ a ∈ l, f a = some (g a)) : l.filterMap f = l.map g := by
  induction l with
  | nil => rfl
  | cons a l2 ih =>
    rw [List.filterMap_cons, h a (List.mem_cons_self a l2), List.map_cons,
      ih (fun b hb => h b (List.mem_cons_of_mem a hb))]

/-- The entry a node at relative path `e.1` must receive: directories get
the relative path plus a trailing separator, stored; files get the
relative path, deflated. -/
def relFormat (e : GoPath × Bool) : ZipEntry :=
  if e.2 then ⟨pathString e.1 ++ "/", zipStore⟩ else ⟨pathString e.1, zipDeflate⟩

/-- Claim C6: archive completeness — zipping the directory at any absolute
location `root` yields exactly one entry per file or directory beneath it
— the source itself excluded — each named by its path relative to the
source (directories with a trailing `/` and method Store, files without
and method Deflate), for a total of `F + D` entries. -/
theorem ZipDirectory_completeness (root : GoPath) (nm : String) (cs : List FSNode) :
    ZipDirectory root (.dir nm cs) = (walkChildren [] cs).map relFormat ∧
    (ZipDirectory root (.dir nm cs)).length = countFilesList cs + countDirsList cs := by
  have hw : walkChildren root cs = (walkChildren [] cs).map (fun e => (root ++ e.1, e.2)) := by
    have h0 := walkChildren_shift root [] cs
    simpa using h0
  have hmain : ZipDirectory root (.dir nm cs) = (walkChildren [] cs).map relFormat := by
    calc ZipDirectory root (.dir nm cs)
        = ((root, true) :: walkChildren root cs).filterMap (zipDirent root) := rfl
      _ = (walkChildren root cs).filterMap (zipDirent root) := by
            rw [List.filterMap_cons]
            have hroot : zipDirent root (root, true) = none := by
              simp [zipDirent, relPath, List.drop_length]
            rw [hroot]
      _ = ((walkChildren [] cs).map (fun e => (root ++ e.1, e.2))).filterMap
            (zipDirent root) := by rw [hw]
      _ = (walkChildren [] cs).filterMap
            (fun e => zipDirent root (root ++ e.1, e.2)) := by
            rw [List.filterMap_map]
            rfl
      _ = (walkChildren [] cs).map relFormat := by
            apply filterMap_eq_map_of_some
            intro e he
            have hlen : 0 < e.1.length := by
              have h1 := walkChildren_path_long [] cs e he
              simpa using h1
            have hrel : relPath root (root ++ e.1) = e.1 := by
              simp [relPath, List.drop_left]
            have hne : ¬(e.1 = []) := by
              intro h0
              rw [h0] at hlen
              simp at hlen
            cases hb : e.2 <;> simp [zipDirent, hrel, hne, relFormat, hb]
  refine ⟨hmain, ?_⟩
  rw [hmain, List.length_map, walkChildren_length]

/-! ## Failure behaviour of `ZipDirectory` on the destination file

`os.Create(destZipPath)` on func.go line 31 truncates or creates the
destination before a single source byte is read; entries are then written
in walk order.  When the walk callback fails — `os.Open` on line 93 or
`io.Copy` on line 99 — `ZipDirectory` returns the error (line 108) and no
code path removes the destination file, so whatever was written so far
stays there in place of any earlier archive of the same name.  `prior` is
the archive previously at the destination; `failAt = some k` makes the
walk fail while producing entry `k`.
-/

/-- Destination-file state after a `ZipDirectory` call:
whether the call returned `nil`, and the archive content now at the
destination path (`none` = no file). -/
structure ZipRunState where
  returnedOk : Bool
  dest : Option (List ZipEntry)
deriving DecidableEq, Repr

/-- The effect of one `ZipDirectory(sourcePath, destZipPath)` call on the
destination file. -/
def zipDirectoryRun (prior : Option (List ZipEntry)) (createOk : Bool) (root : GoPath)
    (n : FSNode) (failAt : Option Nat) : ZipRunState :=
  if createOk then
    match failAt with
    | none => ⟨true, some (ZipDirectory root n)⟩
    | some k =>
        if k < (ZipDirectory root n).length then
          ⟨false, some ((ZipDirectory root n).take k)⟩
        else ⟨true, some (ZipDirectory root n)⟩
  else ⟨false, prior⟩

/-- Claim C10: `ZipDirectory` is not atomic on failure: once the destination
file is created, a walk failure at any entry returns an error yet leaves a
(possibly partial) archive at the destination — never cleaning it up — and
the final destination content is independent of whatever archive was there
before the call. -/
theorem zip_failure_overwrites_dest (prior prior2 : Option (List ZipEntry))
    (root : GoPath) (n : FSNode) (k : Nat)
    (hk : k < (ZipDirectory root n).length) :
    (zipDirectoryRun prior true root n (some k)).returnedOk = false ∧
    (zipDirectoryRun prior true root n (some k)).dest =
      some ((ZipDirectory root n).take k) ∧
    (zipDirectoryRun prior true root n (some k)).dest ≠ none ∧
    zipDirectoryRun prior2 true root n (some k) =
      zipDirectoryRun prior true root n (some k) := by
  simp [zipDirectoryRun, hk]

/-- Witness for C10: zipping `/data/A` containing files `f1`, `f2` over a
previous archive, failing at the second entry, reports an error and leaves
the one-entry partial archive in place of the old one. -/
theorem zip_failure_overwrites_dest_witness :
    1 < (ZipDirectory ["data", "A"] (.dir "A" [.file "f1", .file "f2"])).length ∧
    (zipDirectoryRun (some [⟨"old", 8⟩]) true ["data", "A"]
        (.dir "A" [.file "f1", .file "f2"]) (some 1)).returnedOk = false ∧
    (zipDirectoryRun (some [⟨"old", 8⟩]) true ["data", "A"]
        (.dir "A" [.file "f1", .file "f2"]) (some 1)).dest = some [⟨"f1", 8⟩] := by
  have h := zip_failure_overwrites_dest (some [⟨"old", 8⟩]) (some [⟨"old", 8⟩])
    ["data", "A"] (.dir "A" [.file "f1", .file "f2"]) 1 (by decide)
  exact ⟨by decide, h.1, by rw [h.2.1]; decide⟩
